import Mathlib

/-!
Verification of the trading-strategy analytics core.

This file gives a shallow embedding of the per-address statistics engine
(`src/analysis/address_analysis.py`), the per-market trade/price analysis
(`src/analysis/market_analysis.py`) and the order-book depth analysis
(`src/api/backpack_client.py`), and proves the spec claims about them.

Modelling conventions:
* Python floats are modelled by exact rationals `ℚ`; quantities whose code
  involves square roots (Sharpe ratio, volatility) live in `ℝ`.
* `float('inf')` as produced by the profit-factor branch is modelled by a
  dedicated constructor of `PyFloat`.
* Values that pandas produces as NaN (indicators on short windows) are
  modelled with `Option`, none meaning NaN; Python ordered comparisons
  against NaN are false, which the `pyGtO`/`pyLtO` helpers reproduce.
* A Python dict record with optional, duck-typed fields is modelled by a
  structure of `Option`-valued fields; a non-numeric `profit` entry is the
  `PyVal.str` case, and comparing it with `0` raises (`Except.error`),
  mirroring the `TypeError` CPython raises.
* Returning the empty dict `{}` is modelled by `Option.none` on the result.
-/

/-- A duck-typed Python scalar as stored in a trade record: either a number
or a (malformed) string. -/
inductive PyVal where
  | num (q : ℚ)
  | str (s : String)
deriving DecidableEq

/-- A Python float that may be the `float('inf')` produced by
`profit_factor = ... if total_loss != 0 else float('inf')`. -/
inductive PyFloat where
  | fin (q : ℚ)
  | inf
deriving DecidableEq

/-- A raw trade record (a Python dict); every field is optional because the
code reads them with `t.get(key, default)`. -/
structure RawTrade where
  address : Option String
  profit : Option PyVal
  symbol : Option String
  timestamp : Option ℤ
deriving DecidableEq

/-- `t.get('profit', 0)`. -/
def getProfit (t : RawTrade) : PyVal := t.profit.getD (PyVal.num 0)

/-- The numeric value of a trade's profit; only ever used on records whose
profit passed a numeric comparison. -/
def numOf (t : RawTrade) : ℚ :=
  match getProfit t with
  | .num q => q
  | .str _ => 0

/-- Python's `v > 0`: raises `TypeError` when `v` is a string. -/
def pyGtZero : PyVal → Except String Bool
  | .num q => .ok (decide (0 < q))
  | .str _ => .error "TypeError"

/-- Python's `v < 0`: raises `TypeError` when `v` is a string. -/
def pyLtZero : PyVal → Except String Bool
  | .num q => .ok (decide (q < 0))
  | .str _ => .error "TypeError"

/-- A list comprehension `[x for x in l if p x]` whose predicate may raise:
the first raising element aborts the whole comprehension. -/
def filterE {α : Type} (p : α → Except String Bool) : List α → Except String (List α)
  | [] => .ok []
  | x :: xs =>
    match p x with
    | .error e => .error e
    | .ok b =>
      match filterE p xs with
      | .error e => .error e
      | .ok rest => .ok (if b then x :: rest else rest)

/-- `np.mean` (sum over length; the code only applies it to non-empty data). -/
def npMean (l : List ℚ) : ℚ := l.sum / l.length

/-- `np.var` with the default `ddof=0` (population variance). -/
def npVar (l : List ℚ) : ℚ := ((l.map fun x => (x - npMean l) ^ 2).sum) / l.length

/-- `np.std` with the default `ddof=0`. -/
noncomputable def npStd (l : List ℚ) : ℝ := Real.sqrt (npVar l)

/-- `_calculate_sharpe_ratio` from `address_analysis.py` with the default
`risk_free_rate = 0.02`: excess returns are `r - 0.02/252`, fewer than two
observations give `0.0`, otherwise `mean/std * sqrt(252)`. -/
noncomputable def calcSharpe (returns : List ℚ) : ℝ :=
  if returns = [] then 0
  else
    let excess := returns.map fun r => r - (2 / 100) / 252
    if excess.length < 2 then 0
    else (npMean excess : ℝ) / npStd excess * Real.sqrt 252

/-- Running cumulative sums starting from `acc` (`np.cumsum` is
`cumsumFrom 0`). -/
def cumsumFrom (acc : ℚ) : List ℚ → List ℚ
  | [] => []
  | x :: xs => (acc + x) :: cumsumFrom (acc + x) xs

/-- `np.cumsum`. -/
def cumsum (l : List ℚ) : List ℚ := cumsumFrom 0 l

/-- Running maxima of a list, seeded with `m`. -/
def runMaxFrom (m : ℚ) : List ℚ → List ℚ
  | [] => []
  | x :: xs => max m x :: runMaxFrom (max m x) xs

/-- `np.maximum.accumulate`. -/
def runMax : List ℚ → List ℚ
  | [] => []
  | x :: xs => runMaxFrom x (x :: xs)

/-- `np.max` on a list (the code guards against the empty case). -/
def pyListMax : List ℚ → ℚ
  | [] => 0
  | x :: xs => xs.foldl max x

/-- `min` of a list with the same convention. -/
def pyListMin : List ℚ → ℚ
  | [] => 0
  | x :: xs => xs.foldl min x

/-- `_calculate_max_drawdown` from `address_analysis.py`: cumulative sums of
the profits in list order, running peak, peak minus current, maximum. -/
def calcMaxDrawdown (returns : List ℚ) : ℚ :=
  if returns = [] then 0
  else
    let cumulative := cumsum returns
    let running := runMax cumulative
    let drawdown := List.zipWith (fun a b => a - b) running cumulative
    pyListMax drawdown

/-- Keep the first occurrence of each element, dropping later duplicates
(the insertion-order view of a collection of keys). -/
def dedupFirstAux {α : Type} [DecidableEq α] (seen : List α) : List α → List α
  | [] => []
  | x :: xs => if x ∈ seen then dedupFirstAux seen xs else x :: dedupFirstAux (x :: seen) xs

/-- First-occurrence deduplication. -/
def dedupFirst {α : Type} [DecidableEq α] (l : List α) : List α := dedupFirstAux [] l

/-- Python's `max(l, key=key)`: the first element with maximal key.  The
fold only replaces the candidate on a strictly larger key, so ties keep the
earlier element, as CPython's `max` does. -/
def firstMaxBy {α β : Type} [LinearOrder β] (key : α → β) : List α → Option α
  | [] => none
  | x :: xs => some (xs.foldl (fun best y => if key best < key y then y else best) x)

/-- `_analyze_time_distribution`: the most frequent hour bucket, ties broken
by first encounter.  `hourOf` abstracts `datetime.fromtimestamp(ms/1000).hour`
(host-local time); a `none` result of `hourOf` models the exception
`fromtimestamp` raises on out-of-range timestamps, which the function
catches itself, returning the empty dict. -/
def timeDistribution (hourOf : ℤ → Option ℕ) (trades : List RawTrade) : Option ℕ :=
  match trades.mapM (fun t => hourOf (t.timestamp.getD 0)) with
  | none => none
  | some hours => firstMaxBy (fun h => hours.count h) (dedupFirst hours)

/-- Per-symbol (count, summed profit) statistics in first-encounter order,
skipping records with a missing or empty symbol.  Reached only after the
partition into winning/losing trades succeeded, so profits are numeric. -/
def symStats (trades : List RawTrade) : List (String × ℕ × ℚ) :=
  let syms := dedupFirst (trades.filterMap fun t =>
    match t.symbol with
    | some s => if s = "" then none else some s
    | none => none)
  syms.map fun s =>
    let mine := trades.filter fun t => t.symbol == some s
    (s, mine.length, (mine.map numOf).sum)

/-- `_analyze_symbol_distribution`: (most traded symbol, most profitable
symbol), or the empty dict when no record carries a symbol. -/
def symbolDistribution (trades : List RawTrade) : Option (String × String) :=
  match firstMaxBy (fun x => x.2.1) (symStats trades),
        firstMaxBy (fun x => x.2.2) (symStats trades) with
  | some mt, some mp => some (mt.1, mp.1)
  | _, _ => none

/-- The analysis dict built by `analyze_trades` for a non-empty filtered
trade list. -/
structure AnalysisResult where
  address : String
  total_trades : ℕ
  win_rate : ℚ
  total_profit : ℚ
  total_loss : ℚ
  avg_profit : ℚ
  avg_loss : ℚ
  max_profit : ℚ
  max_loss : ℚ
  profit_factor : PyFloat
  sharpe : ℝ
  max_drawdown : ℚ
  time_distribution : Option ℕ
  symbol_distribution : Option (String × String)

/-- The trades of `trades` belonging to `address`
(`[t for t in trades if t.get('address') == address]`). -/
def filterAddr (trades : List RawTrade) (address : String) : List RawTrade :=
  trades.filter fun t => t.address == some address

/-- The body of `analyze_trades` after the winning/losing partition
succeeded: every aggregate of the result dict, in source order. -/
noncomputable def buildResult (hourOf : ℤ → Option ℕ) (address : String)
    (ats winning losing : List RawTrade) : AnalysisResult :=
  let total_trades := ats.length
  let win_rate : ℚ := if 0 < total_trades then (winning.length : ℚ) / total_trades else 0
  let total_profit := (winning.map numOf).sum
  let total_loss := (losing.map numOf).sum
  let avg_profit : ℚ := if winning = [] then 0 else total_profit / winning.length
  let avg_loss : ℚ := if losing = [] then 0 else total_loss / losing.length
  let max_profit := if winning = [] then 0 else pyListMax (winning.map numOf)
  let max_loss := if losing = [] then 0 else pyListMin (losing.map numOf)
  let profit_factor := if total_loss ≠ 0 then PyFloat.fin |total_profit / total_loss| else PyFloat.inf
  let returns := ats.map numOf
  { address := address
    total_trades := total_trades
    win_rate := win_rate
    total_profit := total_profit
    total_loss := total_loss
    avg_profit := avg_profit
    avg_loss := avg_loss
    max_profit := max_profit
    max_loss := max_loss
    profit_factor := profit_factor
    sharpe := calcSharpe returns
    max_drawdown := calcMaxDrawdown returns
    time_distribution := timeDistribution hourOf ats
    symbol_distribution := symbolDistribution ats }

/-- The `try`-body of `analyze_trades`: empty filter gives the empty dict;
the winning/losing comprehensions are the first place a malformed profit
raises; on success the result dict is built. -/
noncomputable def analyzeTradesE (hourOf : ℤ → Option ℕ) (trades : List RawTrade)
    (address : String) : Except String (Option AnalysisResult) :=
  let ats := filterAddr trades address
  if ats = [] then .ok none
  else
    match filterE (fun t => pyGtZero (getProfit t)) ats,
          filterE (fun t => pyLtZero (getProfit t)) ats with
    | .ok winning, .ok losing => .ok (some (buildResult hourOf address ats winning losing))
    | .error e, _ => .error e
    | .ok _, .error e => .error e

/-- `AddressAnalysis.analyze_trades`: the catch-all handler turns any raised
exception into the empty dict. -/
noncomputable def analyze_trades (hourOf : ℤ → Option ℕ) (trades : List RawTrade)
    (address : String) : Option AnalysisResult :=
  match analyzeTradesE hourOf trades address with
  | .ok v => v
  | .error _ => none

/-- The addresses contributed by a trade list: `t.get('address')` for each
trade, keeping only truthy values (neither missing nor the empty string). -/
def validAddresses (trades : List RawTrade) : List String :=
  (trades.filterMap fun t => t.address).filter fun a => a ≠ ""

/-- The distinct addresses of the trade list in insertion order; the Python
code builds the same collection as a `set`, whose iteration order is
arbitrary, so callers receive it as some permutation of this list. -/
def addressList (trades : List RawTrade) : List String := dedupFirst (validAddresses trades)

/-- The descending-Sharpe comparator used by
`trader_results.sort(key=..., reverse=True)`. -/
noncomputable def tlDesc (x y : AnalysisResult) : Bool := decide (y.sharpe ≤ x.sharpe)

/-- The accumulation loop of `find_top_traders`: analyze each enumerated
address and keep the non-empty results with at least `min_trades` trades. -/
noncomputable def collectTraders (hourOf : ℤ → Option ℕ) (trades : List RawTrade)
    (min_trades : ℕ) (addrs : List String) : List AnalysisResult :=
  addrs.filterMap fun a =>
    match analyze_trades hourOf trades a with
    | some r => if min_trades ≤ r.total_trades then some r else none
    | none => none

/-- `AddressAnalysis.find_top_traders`.  `addrs` is the iteration order of
the Python `set` of addresses, which the caller must pass explicitly because
set iteration order is arbitrary; the final sort is stable and descending by
Sharpe ratio. -/
noncomputable def find_top_traders (hourOf : ℤ → Option ℕ) (trades : List RawTrade)
    (min_trades : ℕ) (addrs : List String) : List AnalysisResult :=
  (collectTraders hourOf trades min_trades addrs).mergeSort tlDesc

/-- A concrete stand-in for the host-local `hourOf` used by the closed
scenario theorems (their asserted fields do not depend on it). -/
def hourOfDefault (ms : ℤ) : Option ℕ := some ((ms / 1000 % 86400 / 3600).toNat)

/-- A market trade row as consumed by `MarketAnalysis._analyze_trades`
after the `astype(float)` coercions. -/
structure MarketTrade where
  price : ℚ
  quantity : ℚ
  quoteQuantity : ℚ
  isBuyerMaker : Bool
deriving DecidableEq

/-- The result dict of `MarketAnalysis._analyze_trades`.  `volatility` is
`none` when pandas would produce NaN (fewer than two percentage changes). -/
structure TradeStats where
  total_trades : ℕ
  total_volume : ℚ
  total_value : ℚ
  avg_trade_size : ℚ
  avg_trade_value : ℚ
  buyRate : ℚ
  price_trend : ℤ
  volatility : Option ℝ

/-- `Series.pct_change` with the leading NaN dropped: the period-over-period
relative changes of consecutive entries. -/
def pctChanges (ps : List ℚ) : List ℚ :=
  List.zipWith (fun prev cur => (cur - prev) / prev) ps ps.tail

/-- Pandas `Series.std` (sample variance, `ddof=1`) of the non-NaN entries. -/
def sampleVar (l : List ℚ) : ℚ :=
  ((l.map fun x => (x - npMean l) ^ 2).sum) / (l.length - 1 : ℕ)

/-- `MarketAnalysis._analyze_trades`: totals, averages, taker-buy share,
price trend from newest (index 0) versus oldest (index -1) price with a
0.1% threshold, and trade-count-scaled volatility. -/
noncomputable def marketAnalyzeTrades (trades : List MarketTrade) : Option TradeStats :=
  match trades with
  | [] => none
  | t0 :: rest =>
    let all := t0 :: rest
    let n := all.length
    let total_volume := (all.map fun t => t.quantity).sum
    let total_value := (all.map fun t => t.quoteQuantity).sum
    let first_price := (rest.getLastD t0).price
    let last_price := t0.price
    let price_change := (last_price - first_price) / first_price
    let rets := pctChanges (all.map fun t => t.price)
    some
      { total_trades := n
        total_volume := total_volume
        total_value := total_value
        avg_trade_size := total_volume / n
        avg_trade_value := total_value / n
        buyRate := ((all.filter fun t => !t.isBuyerMaker).length : ℚ) / n
        price_trend :=
          if 1 / 1000 < price_change then 1
          else if price_change < -(1 / 1000) then -1
          else 0
        volatility :=
          if rets.length < 2 then none
          else some (Real.sqrt (sampleVar rets) * Real.sqrt n) }

/-- A kline row (`openTime, open, high, low, close, volume, closeTime,
quoteVolume, trades`) after the numeric coercions. -/
structure Kline where
  openTime : ℤ
  openPrice : ℚ
  high : ℚ
  low : ℚ
  close : ℚ
  volume : ℚ
  closeTime : ℤ
  quoteVolume : ℚ
  tradeCount : ℕ
deriving DecidableEq

/-- `rolling(window=w).mean().iloc[-1]`: NaN (`none`) unless at least `w`
observations exist, else the mean of the last `w`. -/
def rollingMeanLast (w : ℕ) (l : List ℚ) : Option ℚ :=
  if l.length < w then none else some (npMean (l.drop (l.length - w)))

/-- `Series.diff` with its leading NaN dropped. -/
def diffs (l : List ℚ) : List ℚ := List.zipWith (fun a b => b - a) l l.tail

/-- The gain series `delta.where(delta > 0, 0)`: the leading NaN of `diff`
compares false against `0`, so index 0 holds `0`, not NaN. -/
def gainSeries (closes : List ℚ) : List ℚ :=
  0 :: (diffs closes).map fun d => if 0 < d then d else 0

/-- The loss series `(-delta).where(delta < 0, 0)` with the same convention. -/
def lossSeries (closes : List ℚ) : List ℚ :=
  0 :: (diffs closes).map fun d => if d < 0 then -d else 0

/-- The 14-period RSI at the last index.  `none` is pandas NaN (window not
full, or `0/0` average gain over average loss); a zero average loss with a
positive average gain gives `rs = inf`, hence `rsi = 100`. -/
def rsiLast (closes : List ℚ) : Option ℚ :=
  match rollingMeanLast 14 (gainSeries closes), rollingMeanLast 14 (lossSeries closes) with
  | some g, some l => if l ≠ 0 then some (100 - 100 / (1 + g / l)) else if g ≠ 0 then some 100 else none
  | _, _ => none

/-- Python `a > b` on possibly-NaN floats: false whenever either side is
NaN (`none`). -/
def pyGtO : Option ℚ → Option ℚ → Bool
  | some a, some b => decide (b < a)
  | _, _ => false

/-- Python `a < b` on possibly-NaN floats. -/
def pyLtO : Option ℚ → Option ℚ → Bool
  | some a, some b => decide (a < b)
  | _, _ => false

/-- The result dict of `MarketAnalysis._analyze_price`. -/
structure PriceStats where
  current_price : ℚ
  price_change_24h : ℚ
  price_change_pct_24h : ℚ
  high_24h : ℚ
  low_24h : ℚ
  volume_24h : ℚ
  ma7 : Option ℚ
  ma25 : Option ℚ
  rsi : Option ℚ
  trend : String
deriving DecidableEq

/-- `MarketAnalysis._analyze_price`: last/first close, extremes, volume,
7- and 25-period moving averages, 14-period RSI, and the trend label chosen
by float comparisons (all false on NaN operands). -/
def analyzePrice (klines : List Kline) : Option PriceStats :=
  match klines with
  | [] => none
  | k0 :: rest =>
    let all := k0 :: rest
    let closes := all.map fun k => k.close
    let current_price := (rest.getLastD k0).close
    let price_24h_ago := k0.close
    let price_change_24h := current_price - price_24h_ago
    let ma7 := rollingMeanLast 7 closes
    let ma25 := rollingMeanLast 25 closes
    let rsi := rsiLast closes
    some
      { current_price := current_price
        price_change_24h := price_change_24h
        price_change_pct_24h := price_change_24h / price_24h_ago * 100
        high_24h := pyListMax (all.map fun k => k.high)
        low_24h := pyListMin (all.map fun k => k.low)
        volume_24h := (all.map fun k => k.volume).sum
        ma7 := ma7
        ma25 := ma25
        rsi := rsi
        trend :=
          if pyGtO (some current_price) ma7 && pyGtO ma7 ma25 && pyGtO rsi (some 70) then
            "strong_up"
          else if pyGtO (some current_price) ma7 && pyGtO ma7 ma25 then "up"
          else if pyLtO (some current_price) ma7 && pyLtO ma7 ma25 && pyLtO rsi (some 30) then
            "strong_down"
          else if pyLtO (some current_price) ma7 && pyLtO ma7 ma25 then "down"
          else "neutral" }

/-- An order book snapshot: price-size levels, best first. -/
structure OrderBook where
  bids : List (ℚ × ℚ)
  asks : List (ℚ × ℚ)
deriving DecidableEq

/-- The result dict of `BackpackClient.analyze_market_depth`. -/
structure DepthStats where
  bid_volume : ℚ
  ask_volume : ℚ
  bid_value : ℚ
  ask_value : ℚ
  spread : ℚ
  spread_pct : ℚ
  mid_price : ℚ
  imbalance : ℚ
deriving DecidableEq

/-- `BackpackClient.analyze_market_depth`: the empty dict when either side
is empty, else level sums, best-quote spread and mid price, and the volume
imbalance (zero unless total volume is positive). -/
def analyze_market_depth (ob : OrderBook) : Option DepthStats :=
  match ob.bids, ob.asks with
  | [], _ => none
  | _, [] => none
  | b0 :: _, a0 :: _ =>
    let bid_volume := (ob.bids.map fun p => p.2).sum
    let ask_volume := (ob.asks.map fun p => p.2).sum
    let best_bid := b0.1
    let best_ask := a0.1
    let spread := best_ask - best_bid
    let mid_price := (best_bid + best_ask) / 2
    let total_volume := bid_volume + ask_volume
    some
      { bid_volume := bid_volume
        ask_volume := ask_volume
        bid_value := (ob.bids.map fun p => p.1 * p.2).sum
        ask_value := (ob.asks.map fun p => p.1 * p.2).sum
        spread := spread
        spread_pct := spread / mid_price * 100
        mid_price := mid_price
        imbalance := if 0 < total_volume then (bid_volume - ask_volume) / total_volume else 0 }

/-- The trade has a numeric (well-formed) profit. -/
def isNumTrade (t : RawTrade) : Bool :=
  match getProfit t with
  | .num _ => true
  | .str _ => false

/-- A winning trade: numeric profit strictly positive. -/
def posProfit (t : RawTrade) : Bool :=
  match getProfit t with
  | .num q => decide (0 < q)
  | .str _ => false

/-- A losing trade: numeric profit strictly negative. -/
def negProfit (t : RawTrade) : Bool :=
  match getProfit t with
  | .num q => decide (q < 0)
  | .str _ => false

/-- A breakeven trade: numeric profit equal to zero. -/
def zeroProfit (t : RawTrade) : Bool :=
  match getProfit t with
  | .num q => decide (q = 0)
  | .str _ => false

/-- The spec's excess-return sequence: `profit - 0.02/252` per trade. -/
def specExcess (returns : List ℚ) : List ℚ := returns.map fun r => r - (2 / 100) / 252

/-- The Sharpe ratio exactly as the spec words it: `0.0` for fewer than two
trades, otherwise `mean(excess)/stddev(excess) * sqrt(252)`. -/
noncomputable def specSharpe (returns : List ℚ) : ℝ :=
  if returns.length < 2 then 0
  else (npMean (specExcess returns) : ℝ) / npStd (specExcess returns) * Real.sqrt 252

/-- Scenario trade `{address: "A", profit: 10}`. -/
def c1t1 : RawTrade := ⟨some "A", some (PyVal.num 10), none, none⟩

/-- Scenario trade `{address: "A", profit: -5}`. -/
def c1t2 : RawTrade := ⟨some "A", some (PyVal.num (-5)), none, none⟩

/-- Scenario trade `{address: "A", profit: 20}`. -/
def c1t3 : RawTrade := ⟨some "A", some (PyVal.num 20), none, none⟩

/-- The trade list of the win-rate/drawdown scenario. -/
def c1trades : List RawTrade := [c1t1, c1t2, c1t3]

/-- A single all-breakeven trade for address `A`. -/
def c2trade : RawTrade := ⟨some "A", some (PyVal.num 0), none, none⟩

/-- A trade list whose only trade is breakeven: `total_profit = 0` and
`total_loss = 0`. -/
def c2trades : List RawTrade := [c2trade]

/-- A malformed record: the profit field holds a string, so comparing it
with `0` raises `TypeError`. -/
def c8bad : RawTrade := ⟨some "A", some (PyVal.str "oops"), none, none⟩

/-- A trade list containing only the malformed record. -/
def c8trades : List RawTrade := [c8bad]

/-- A well-formed trade for address `B` used by the batch-isolation part of
the error-policy claim. -/
def c8good : RawTrade := ⟨some "B", some (PyVal.num 7), none, none⟩

/-- A batch mixing one malformed address with a well-formed one. -/
def c8mix : List RawTrade := [c8bad, c8good]

/-- A trade with one loss, used to witness the zero-profit-factor branch. -/
def c2wt : RawTrade := ⟨some "A", some (PyVal.num (-3)), none, none⟩

/-- First trade of address `A` in the tie-break scenario. -/
def c6tA1 : RawTrade := ⟨some "A", some (PyVal.num 2), none, none⟩

/-- Second trade of address `A` in the tie-break scenario. -/
def c6tA2 : RawTrade := ⟨some "A", some (PyVal.num (-1)), none, none⟩

/-- First trade of address `B`: the same profit history as address `A`, so
both addresses get the same (tied) Sharpe ratio. -/
def c6tB1 : RawTrade := ⟨some "B", some (PyVal.num 2), none, none⟩

/-- Second trade of address `B` in the tie-break scenario. -/
def c6tB2 : RawTrade := ⟨some "B", some (PyVal.num (-1)), none, none⟩

/-- The tie-break scenario: address `A` appears first in the trade list and
both addresses have identical profit histories, hence equal Sharpe ratios. -/
def c6trades : List RawTrade := [c6tA1, c6tA2, c6tB1, c6tB2]

/-- The analysis record of address `A` in the tie-break scenario. -/
noncomputable def c6rA : AnalysisResult :=
  buildResult hourOfDefault "A" [c6tA1, c6tA2] [c6tA1] [c6tA2]

/-- The analysis record of address `B` in the tie-break scenario. -/
noncomputable def c6rB : AnalysisResult :=
  buildResult hourOfDefault "B" [c6tB1, c6tB2] [c6tB1] [c6tB2]

/-- Newest market trade of the price-trend scenario (index 0, price 102). -/
def c9t0 : MarketTrade := ⟨102, 1, 102, false⟩

/-- Oldest market trade of the price-trend scenario (index -1, price 100). -/
def c9t1 : MarketTrade := ⟨100, 1, 100, true⟩

/-- A single kline with all prices equal to 1, for the short-window trend
scenario. -/
def c10k : Kline := ⟨0, 1, 1, 1, 1, 1, 0, 1, 0⟩

lemma le_foldl_max (a : ℚ) (l : List ℚ) : a ≤ l.foldl max a := by
  induction l generalizing a with
  | nil => exact le_refl a
  | cons x xs ih => exact le_trans (le_max_left a x) (ih (max a x))

lemma foldl_max_le (c : ℚ) : ∀ (l : List ℚ) (a : ℚ), a ≤ c → (∀ y ∈ l, y ≤ c) →
    l.foldl max a ≤ c
  | [], _, ha, _ => ha
  | x :: xs, a, ha, hl =>
    foldl_max_le c xs (max a x) (max_le ha (hl x (List.mem_cons_self x xs)))
      fun y hy => hl y (List.mem_cons_of_mem x hy)

lemma pyListMax_head_le (x : ℚ) (xs : List ℚ) : x ≤ pyListMax (x :: xs) := le_foldl_max x xs

lemma pyListMax_le {c : ℚ} {x : ℚ} {xs : List ℚ} (h : ∀ y ∈ x :: xs, y ≤ c) :
    pyListMax (x :: xs) ≤ c :=
  foldl_max_le c xs x (h x (List.mem_cons_self x xs)) fun y hy => h y (List.mem_cons_of_mem x hy)

lemma runMax_cons (c : ℚ) (cs : List ℚ) : runMax (c :: cs) = c :: runMaxFrom c cs := by
  show runMaxFrom c (c :: cs) = _
  rw [runMaxFrom, max_self]

lemma runMaxFrom_of_chain : ∀ (xs : List ℚ) (m : ℚ),
    List.Chain' (fun a b => a ≤ b) xs → (∀ y ∈ xs.head?, m ≤ y) → runMaxFrom m xs = xs
  | [], _, _, _ => rfl
  | x :: xs, m, hchain, hm => by
    rw [runMaxFrom, max_eq_right (hm x rfl)]
    congr 1
    exact runMaxFrom_of_chain xs x hchain.tail fun y hy => (List.chain'_cons'.mp hchain).1 y hy

lemma zipWith_sub_self : ∀ l : List ℚ,
    List.zipWith (fun a b => a - b) l l = l.map fun _ => (0 : ℚ)
  | [] => rfl
  | x :: xs => by simp [zipWith_sub_self xs]

lemma calcMaxDrawdown_nonneg (l : List ℚ) : 0 ≤ calcMaxDrawdown l := by
  rcases l with _ | ⟨y, ys⟩
  · simp [calcMaxDrawdown]
  · unfold calcMaxDrawdown
    rw [if_neg (List.cons_ne_nil y ys)]
    have hc : cumsum (y :: ys) = (0 + y) :: cumsumFrom (0 + y) ys := rfl
    rw [hc]
    dsimp only
    rw [runMax_cons, List.zipWith_cons_cons]
    refine le_trans ?_ (pyListMax_head_le _ _)
    simp

lemma calcMaxDrawdown_of_chain (l : List ℚ)
    (h : List.Chain' (fun a b => a ≤ b) (cumsum l)) : calcMaxDrawdown l = 0 := by
  rcases l with _ | ⟨y, ys⟩
  · simp [calcMaxDrawdown]
  · unfold calcMaxDrawdown
    rw [if_neg (List.cons_ne_nil y ys)]
    have hc : cumsum (y :: ys) = (0 + y) :: cumsumFrom (0 + y) ys := rfl
    rw [hc] at h ⊢
    dsimp only
    have htail : List.Chain' (fun a b => a ≤ b) (cumsumFrom (0 + y) ys) := h.tail
    rw [runMax_cons, runMaxFrom_of_chain _ _ htail
      (fun z hz => (List.chain'_cons'.mp h).1 z hz)]
    rw [show ((0 + y) :: cumsumFrom (0 + y) ys).zipWith (fun a b => a - b)
        ((0 + y) :: cumsumFrom (0 + y) ys) = _ from zipWith_sub_self _]
    rw [List.map]
    refine le_antisymm (pyListMax_le ?_) (pyListMax_head_le 0 _)
    intro z hz
    rcases List.mem_cons.mp hz with h0 | hmem
    · exact le_of_eq h0
    · rcases List.mem_map.mp hmem with ⟨w, _, hw⟩
      exact le_of_eq hw.symm

/-- C4: for every list of per-trade profits the maximum drawdown is
non-negative, and it is zero whenever the cumulative-profit sequence is
non-decreasing. -/
theorem c4_drawdown (l : List ℚ) :
    0 ≤ calcMaxDrawdown l
    ∧ (List.Chain' (fun a b => a ≤ b) (cumsum l) → calcMaxDrawdown l = 0) :=
  ⟨calcMaxDrawdown_nonneg l, calcMaxDrawdown_of_chain l⟩

/-- Witness for C4 at the profit list `[1, 2]`, whose cumulative sums
`[1, 3]` are non-decreasing. -/
theorem c4_drawdown_witness :
    List.Chain' (fun a b : ℚ => a ≤ b) (cumsum [1, 2])
    ∧ 0 ≤ calcMaxDrawdown [1, 2] ∧ calcMaxDrawdown [1, 2] = 0 :=
  ⟨by norm_num [cumsum, cumsumFrom], (c4_drawdown [1, 2]).1,
    (c4_drawdown [1, 2]).2 (by norm_num [cumsum, cumsumFrom])⟩

/-- C5: `_calculate_sharpe_ratio` returns `0.0` on fewer than two trades and
otherwise `mean(excess)/stddev(excess) * sqrt(252)` with
`excess_i = profit_i - 0.02/252`, exactly the spec's formula. -/
theorem c5_sharpe_formula (returns : List ℚ) : calcSharpe returns = specSharpe returns := by
  rcases returns with _ | ⟨a, l⟩
  · simp [calcSharpe, specSharpe]
  · simp [calcSharpe, specSharpe, specExcess]

/-- C1: the scenario `[{A, 10}, {A, -5}, {A, 20}]` analysed for address
`A` yields `win_rate = 2/3`, `total_profit = 30`, `total_loss = -5`,
`profit_factor = 6` and `max_drawdown = 5`, the latter via cumulative sums
`[10, 5, 25]` and running peaks `[10, 10, 25]`. -/
theorem c1_scenario :
    (analyze_trades hourOfDefault c1trades "A").map (fun r => r.win_rate) = some (2 / 3)
    ∧ (analyze_trades hourOfDefault c1trades "A").map (fun r => r.total_profit) = some 30
    ∧ (analyze_trades hourOfDefault c1trades "A").map (fun r => r.total_loss) = some (-5)
    ∧ (analyze_trades hourOfDefault c1trades "A").map (fun r => r.profit_factor)
        = some (PyFloat.fin 6)
    ∧ (analyze_trades hourOfDefault c1trades "A").map (fun r => r.max_drawdown) = some 5
    ∧ cumsum [10, -5, 20] = [10, 5, 25]
    ∧ runMax [10, 5, 25] = [10, 10, 25] := by
  norm_num [analyze_trades, analyzeTradesE, filterAddr, buildResult, filterE, c1trades,
    c1t1, c1t2, c1t3, getProfit, pyGtZero, pyLtZero, numOf, List.cons_ne_nil,
    calcMaxDrawdown, cumsum, cumsumFrom, runMax, runMaxFrom, pyListMax]

/-- C7: depth analysis returns the empty result when either book side is
empty; on a book with non-negative sizes it returns the level sums,
`spread = best_ask - best_bid`, `mid_price = (best_bid + best_ask)/2`,
`spread_percentage = spread/mid_price*100` and the volume imbalance (zero
when the total volume is zero); and the concrete scenario
`bids = [[100,2],[99,3]]`, `asks = [[101,1],[102,4]]` yields
`bid_volume = 5`, `ask_volume = 5`, `spread = 1`, `mid_price = 100.5`,
`imbalance = 0`. -/
theorem c7_depth :
    (∀ ob : OrderBook, ob.bids = [] ∨ ob.asks = [] → analyze_market_depth ob = none)
    ∧ (∀ (b0 a0 : ℚ × ℚ) (bs asks1 : List (ℚ × ℚ)),
        (∀ p ∈ b0 :: bs, 0 ≤ p.2) → (∀ p ∈ a0 :: asks1, 0 ≤ p.2) →
        analyze_market_depth ⟨b0 :: bs, a0 :: asks1⟩ = some
          { bid_volume := ((b0 :: bs).map fun p => p.2).sum
            ask_volume := ((a0 :: asks1).map fun p => p.2).sum
            bid_value := ((b0 :: bs).map fun p => p.1 * p.2).sum
            ask_value := ((a0 :: asks1).map fun p => p.1 * p.2).sum
            spread := a0.1 - b0.1
            spread_pct := (a0.1 - b0.1) / ((b0.1 + a0.1) / 2) * 100
            mid_price := (b0.1 + a0.1) / 2
            imbalance :=
              if ((b0 :: bs).map fun p => p.2).sum + ((a0 :: asks1).map fun p => p.2).sum = 0
              then 0
              else (((b0 :: bs).map fun p => p.2).sum - ((a0 :: asks1).map fun p => p.2).sum)
                / (((b0 :: bs).map fun p => p.2).sum + ((a0 :: asks1).map fun p => p.2).sum) })
    ∧ analyze_market_depth ⟨[(100, 2), (99, 3)], [(101, 1), (102, 4)]⟩
        = some ⟨5, 5, 497, 509, 1, 200 / 201, 201 / 2, 0⟩ := by
  refine ⟨?_, ?_, ?_⟩
  · rintro ⟨bids, asks⟩ h
    rcases h with rfl | rfl
    · cases asks <;> rfl
    · cases bids <;> rfl
  · intro b0 a0 bs asks1 hb ha
    have hbs : 0 ≤ ((b0 :: bs).map fun p => p.2).sum :=
      List.sum_nonneg fun x hx => by
        rcases List.mem_map.mp hx with ⟨p, hp, rfl⟩
        exact hb p hp
    have has : 0 ≤ ((a0 :: asks1).map fun p => p.2).sum :=
      List.sum_nonneg fun x hx => by
        rcases List.mem_map.mp hx with ⟨p, hp, rfl⟩
        exact ha p hp
    have htot := add_nonneg hbs has
    unfold analyze_market_depth
    dsimp only
    by_cases h0 : ((b0 :: bs).map fun p => p.2).sum + ((a0 :: asks1).map fun p => p.2).sum = 0
    · rw [if_pos h0, h0, if_neg (lt_irrefl 0)]
    · rw [if_neg h0, if_pos (lt_of_le_of_ne htot (Ne.symm h0))]
  · norm_num [analyze_market_depth]

/-- Witness for C7: the non-empty branch of the theorem applied to the
one-level book `bids = [[100, 2]]`, `asks = [[101, 1]]`, together with the
empty-side branch at a book with no bids. -/
theorem c7_depth_witness :
    (∀ p ∈ [((100 : ℚ), (2 : ℚ))], 0 ≤ p.2)
    ∧ (∀ p ∈ [((101 : ℚ), (1 : ℚ))], 0 ≤ p.2)
    ∧ analyze_market_depth ⟨[(100, 2)], [(101, 1)]⟩
        = some ⟨2, 1, 200, 101, 1, 200 / 201, 201 / 2, 1 / 3⟩
    ∧ analyze_market_depth ⟨[], [(1, 1)]⟩ = none := by
  have h1 : ∀ p ∈ [((100 : ℚ), (2 : ℚ))], 0 ≤ p.2 := by norm_num
  have h2 : ∀ p ∈ [((101 : ℚ), (1 : ℚ))], 0 ≤ p.2 := by norm_num
  refine ⟨h1, h2, ?_, c7_depth.1 ⟨[], [(1, 1)]⟩ (Or.inl rfl)⟩
  rw [c7_depth.2.1 (100, 2) (101, 1) [] [] h1 h2]
  norm_num

/-- C9: on a non-empty market trade list the price trend compares the
oldest price (last list entry) with the newest price (first entry): `1`
when the relative change exceeds `0.001`, `-1` below `-0.001`, else `0`.
The hypothesis excludes a zero oldest price, where float division would
produce an infinity. -/
theorem c9_price_trend (t0 : MarketTrade) (rest : List MarketTrade)
    (_h0 : (rest.getLastD t0).price ≠ 0) :
    (marketAnalyzeTrades (t0 :: rest)).map (fun s => s.price_trend)
      = some (if 1 / 1000 < (t0.price - (rest.getLastD t0).price) / (rest.getLastD t0).price
              then 1
              else if (t0.price - (rest.getLastD t0).price) / (rest.getLastD t0).price
                  < -(1 / 1000)
              then -1 else 0) := by
  rfl

/-- Witness for C9: two trades with newest price 102 and oldest price 100
give relative change `0.02 > 0.001`, hence trend `1`. -/
theorem c9_price_trend_witness :
    ([c9t1].getLastD c9t0).price ≠ 0
    ∧ (marketAnalyzeTrades [c9t0, c9t1]).map (fun s => s.price_trend) = some 1 := by
  have h : ([c9t1].getLastD c9t0).price ≠ 0 := by norm_num [c9t1]
  refine ⟨h, ?_⟩
  rw [c9_price_trend c9t0 [c9t1] h]
  norm_num [c9t0, c9t1]

lemma pyGtO_none_right (x : Option ℚ) : pyGtO x none = false := by cases x <;> rfl

lemma pyGtO_none_left (x : Option ℚ) : pyGtO none x = false := by cases x <;> rfl

lemma pyLtO_none_right (x : Option ℚ) : pyLtO x none = false := by cases x <;> rfl

lemma pyLtO_none_left (x : Option ℚ) : pyLtO none x = false := by cases x <;> rfl

/-- C10: on a non-empty kline list with fewer than 25 entries the 25-period
moving average is NaN (`none`), every ordered comparison against it is
false, and the trend label is always `neutral`. -/
theorem c10_trend_neutral (k0 : Kline) (rest : List Kline)
    (hlen : (k0 :: rest).length < 25) :
    ((analyzePrice (k0 :: rest)).map (fun s => s.ma25) = some none
    ∧ (analyzePrice (k0 :: rest)).map (fun s => s.trend) = some "neutral")
    ∧ ∀ x : Option ℚ, pyGtO x none = false ∧ pyGtO none x = false
        ∧ pyLtO x none = false ∧ pyLtO none x = false := by
  have hma : rollingMeanLast 25 (k0.close :: rest.map fun k => k.close) = none := by
    rw [rollingMeanLast, if_pos]
    simpa using hlen
  refine ⟨⟨?_, ?_⟩, fun x =>
    ⟨pyGtO_none_right x, pyGtO_none_left x, pyLtO_none_right x, pyLtO_none_left x⟩⟩
  · simp [analyzePrice, hma]
  · simp [analyzePrice, hma, pyGtO_none_right, pyLtO_none_right]

/-- Witness for C10: a single kline (length 1 < 25) gets the `neutral`
trend label. -/
theorem c10_trend_neutral_witness :
    [c10k].length < 25
    ∧ (analyzePrice [c10k]).map (fun s => s.trend) = some "neutral" :=
  ⟨by norm_num, ((c10_trend_neutral c10k [] (by norm_num)).1).2⟩

lemma pyGtZero_eq (t : RawTrade) (h : isNumTrade t = true) :
    pyGtZero (getProfit t) = .ok (posProfit t) := by
  unfold isNumTrade at h
  cases hp : getProfit t with
  | num q => simp [pyGtZero, posProfit, hp]
  | str s => rw [hp] at h; cases h

lemma pyLtZero_eq (t : RawTrade) (h : isNumTrade t = true) :
    pyLtZero (getProfit t) = .ok (negProfit t) := by
  unfold isNumTrade at h
  cases hp : getProfit t with
  | num q => simp [pyLtZero, negProfit, hp]
  | str s => rw [hp] at h; cases h

lemma filterE_eq_filter {α : Type} (pE : α → Except String Bool) (pB : α → Bool) :
    ∀ l : List α, (∀ x ∈ l, pE x = .ok (pB x)) → filterE pE l = .ok (l.filter pB)
  | [], _ => rfl
  | x :: xs, h => by
    have hx := h x (List.mem_cons_self x xs)
    have ih := filterE_eq_filter pE pB xs fun y hy => h y (List.mem_cons_of_mem x hy)
    simp only [filterE, hx, ih, List.filter_cons]

lemma filterE_gt_num : ∀ {ats w : List RawTrade},
    filterE (fun t => pyGtZero (getProfit t)) ats = .ok w →
    ∀ t ∈ ats, isNumTrade t = true := by
  intro ats
  induction ats with
  | nil => intro w _ t ht; cases ht
  | cons x xs ih =>
    intro w h t ht
    simp only [filterE] at h
    cases hp : getProfit x with
    | str s => rw [hp] at h; simp [pyGtZero] at h
    | num q =>
      rw [hp] at h
      cases hrest : filterE (fun t => pyGtZero (getProfit t)) xs with
      | error e =>
        rw [hrest] at h
        simp [pyGtZero] at h
      | ok rest =>
        rcases List.mem_cons.mp ht with rfl | hmem
        · simp [isNumTrade, hp]
        · exact ih hrest t hmem

lemma buildResult_total_trades (hourOf : ℤ → Option ℕ) (address : String)
    (ats winning losing : List RawTrade) :
    (buildResult hourOf address ats winning losing).total_trades = ats.length := rfl

lemma buildResult_win_rate (hourOf : ℤ → Option ℕ) (address : String)
    (ats winning losing : List RawTrade) :
    (buildResult hourOf address ats winning losing).win_rate
      = if 0 < ats.length then (winning.length : ℚ) / ats.length else 0 := rfl

lemma buildResult_total_profit (hourOf : ℤ → Option ℕ) (address : String)
    (ats winning losing : List RawTrade) :
    (buildResult hourOf address ats winning losing).total_profit
      = (winning.map numOf).sum := rfl

lemma buildResult_total_loss (hourOf : ℤ → Option ℕ) (address : String)
    (ats winning losing : List RawTrade) :
    (buildResult hourOf address ats winning losing).total_loss
      = (losing.map numOf).sum := rfl

lemma buildResult_profit_factor (hourOf : ℤ → Option ℕ) (address : String)
    (ats winning losing : List RawTrade) :
    (buildResult hourOf address ats winning losing).profit_factor
      = if (losing.map numOf).sum ≠ 0
        then PyFloat.fin |(winning.map numOf).sum / (losing.map numOf).sum|
        else PyFloat.inf := rfl

lemma analyze_trades_eq_some {hourOf : ℤ → Option ℕ} {trades : List RawTrade}
    {address : String} {r : AnalysisResult}
    (h : analyze_trades hourOf trades address = some r) :
    filterAddr trades address ≠ []
    ∧ (∀ t ∈ filterAddr trades address, isNumTrade t = true)
    ∧ r = buildResult hourOf address (filterAddr trades address)
        ((filterAddr trades address).filter posProfit)
        ((filterAddr trades address).filter negProfit) := by
  unfold analyze_trades at h
  cases hE : analyzeTradesE hourOf trades address with
  | error e => rw [hE] at h; exact Option.noConfusion h
  | ok v =>
    rw [hE] at h
    unfold analyzeTradesE at hE
    by_cases hnil : filterAddr trades address = []
    · rw [if_pos hnil] at hE
      injection hE with hv
      rw [← hv] at h
      exact Option.noConfusion h
    · rw [if_neg hnil] at hE
      cases hw : filterE (fun t => pyGtZero (getProfit t)) (filterAddr trades address) with
      | error e =>
        cases hl : filterE (fun t => pyLtZero (getProfit t)) (filterAddr trades address) with
        | error e2 => rw [hw, hl] at hE; exact Except.noConfusion hE
        | ok l => rw [hw, hl] at hE; exact Except.noConfusion hE
      | ok w =>
        cases hl : filterE (fun t => pyLtZero (getProfit t)) (filterAddr trades address) with
        | error e => rw [hw, hl] at hE; exact Except.noConfusion hE
        | ok l =>
          rw [hw, hl] at hE
          injection hE with hv
          rw [← hv] at h
          injection h with hr
          have hnum := filterE_gt_num hw
          have hwc : w = (filterAddr trades address).filter posProfit := by
            have h2 := filterE_eq_filter (fun t => pyGtZero (getProfit t)) posProfit
              (filterAddr trades address) fun x hx => pyGtZero_eq x (hnum x hx)
            rw [h2] at hw
            injection hw with hww
            exact hww.symm
          have hlc : l = (filterAddr trades address).filter negProfit := by
            have h2 := filterE_eq_filter (fun t => pyLtZero (getProfit t)) negProfit
              (filterAddr trades address) fun x hx => pyLtZero_eq x (hnum x hx)
            rw [h2] at hl
            injection hl with hll
            exact hll.symm
          exact ⟨hnil, hnum, by rw [← hr, hwc, hlc]⟩

/-- C2 counterexample: a single breakeven trade gives `total_loss = 0` and
`total_profit = 0`, yet `profit_factor` is still `+infinity`, so the
claimed equivalence `profit_factor = inf ↔ (total_loss = 0 ∧
total_profit > 0)` fails. -/
theorem c2_counterexample :
    (analyze_trades hourOfDefault c2trades "A").map (fun r => r.profit_factor)
        = some PyFloat.inf
    ∧ (analyze_trades hourOfDefault c2trades "A").map (fun r => r.total_profit) = some 0
    ∧ (analyze_trades hourOfDefault c2trades "A").map (fun r => r.total_loss) = some 0
    ∧ ¬ (∀ r ∈ analyze_trades hourOfDefault c2trades "A",
          (r.profit_factor = PyFloat.inf ↔ r.total_loss = 0 ∧ 0 < r.total_profit)) := by
  have hmem : buildResult hourOfDefault "A" [c2trade] [] []
      ∈ analyze_trades hourOfDefault c2trades "A" := rfl
  refine ⟨rfl, rfl, rfl, ?_⟩
  intro hall
  have hpf : (buildResult hourOfDefault "A" [c2trade] [] []).profit_factor
      = PyFloat.inf := rfl
  have h1 := (hall _ hmem).mp hpf
  rw [buildResult_total_profit] at h1
  simp at h1

/-- C2 amended: for every analysed address the profit factor is `+infinity`
exactly when `total_loss = 0` (regardless of the sign of `total_profit`),
and it is `0` whenever `total_profit = 0` and `total_loss < 0`. -/
theorem c2_profit_factor (hourOf : ℤ → Option ℕ) (trades : List RawTrade) (address : String) :
    ∀ r ∈ analyze_trades hourOf trades address,
      (r.profit_factor = PyFloat.inf ↔ r.total_loss = 0)
      ∧ (r.total_profit = 0 → r.total_loss < 0 → r.profit_factor = PyFloat.fin 0) := by
  intro r hr
  obtain ⟨-, -, hb⟩ := analyze_trades_eq_some (Option.mem_def.mp hr)
  subst hb
  constructor
  · rw [buildResult_profit_factor, buildResult_total_loss]
    by_cases hS : (((filterAddr trades address).filter negProfit).map numOf).sum = 0
    · simp [hS]
    · simp [hS]
  · intro hP hL
    rw [buildResult_total_profit] at hP
    rw [buildResult_total_loss] at hL
    rw [buildResult_profit_factor, if_pos (ne_of_lt hL), hP]
    norm_num

/-- Witness for C2 amended, at a single losing trade (`profit = -3`):
`total_profit = 0`, `total_loss < 0`, and the profit factor is `0`. -/
theorem c2_profit_factor_witness :
    ((buildResult hourOfDefault "A" [c2wt] [] [c2wt]).profit_factor = PyFloat.inf
      ↔ (buildResult hourOfDefault "A" [c2wt] [] [c2wt]).total_loss = 0)
    ∧ (buildResult hourOfDefault "A" [c2wt] [] [c2wt]).profit_factor = PyFloat.fin 0 := by
  have hmem : buildResult hourOfDefault "A" [c2wt] [] [c2wt]
      ∈ analyze_trades hourOfDefault [c2wt] "A" := rfl
  have h := c2_profit_factor hourOfDefault [c2wt] "A" _ hmem
  refine ⟨h.1, h.2 ?_ ?_⟩
  · rw [buildResult_total_profit]
    simp
  · rw [buildResult_total_loss]
    norm_num [c2wt, numOf, getProfit]

lemma countP_partition : ∀ l : List RawTrade, (∀ t ∈ l, isNumTrade t = true) →
    (l.filter posProfit).length + (l.filter negProfit).length
      + (l.filter zeroProfit).length = l.length
  | [], _ => rfl
  | x :: xs, hnum => by
    have hx := hnum x (List.mem_cons_self x xs)
    have ih := countP_partition xs fun t ht => hnum t (List.mem_cons_of_mem x ht)
    cases hp : getProfit x with
    | str s => unfold isNumTrade at hx; rw [hp] at hx; cases hx
    | num q =>
      simp only [List.filter_cons, posProfit, negProfit, zeroProfit, hp, decide_eq_true_eq]
      rcases lt_trichotomy 0 q with h1 | h1 | h1
      · rw [if_pos h1, if_neg (asymm h1), if_neg (ne_of_gt h1)]
        simp only [List.length_cons]
        omega
      · have hq : q = 0 := h1.symm
        subst hq
        rw [if_neg (lt_irrefl 0), if_neg (lt_irrefl 0), if_pos rfl]
        simp only [List.length_cons]
        omega
      · rw [if_neg (asymm h1), if_pos h1, if_neg (ne_of_lt h1)]
        simp only [List.length_cons]
        omega

/-- C3: every non-empty analysis result has `win_rate ∈ [0, 1]` and
`total_trades` equal to the number of winning (`profit > 0`), losing
(`profit < 0`) and breakeven (`profit = 0`) trades of that address. -/
theorem c3_invariants (hourOf : ℤ → Option ℕ) (trades : List RawTrade) (address : String) :
    ∀ r ∈ analyze_trades hourOf trades address,
      0 ≤ r.win_rate ∧ r.win_rate ≤ 1
      ∧ r.total_trades
          = ((filterAddr trades address).filter posProfit).length
            + ((filterAddr trades address).filter negProfit).length
            + ((filterAddr trades address).filter zeroProfit).length := by
  intro r hr
  obtain ⟨hne, hnum, hb⟩ := analyze_trades_eq_some (Option.mem_def.mp hr)
  subst hb
  refine ⟨?_, ?_, ?_⟩
  · rw [buildResult_win_rate]
    split_ifs with h
    · exact div_nonneg (Nat.cast_nonneg _) (Nat.cast_nonneg _)
    · exact le_refl 0
  · rw [buildResult_win_rate]
    split_ifs with h
    · rw [div_le_one (by exact_mod_cast h)]
      exact_mod_cast List.length_filter_le posProfit (filterAddr trades address)
    · exact zero_le_one
  · rw [buildResult_total_trades]
    exact (countP_partition _ hnum).symm

/-- Witness for C3 at the three-trade scenario list: its win rate lies in
`[0, 1]` and the trade counts add up. -/
theorem c3_invariants_witness :
    0 ≤ (buildResult hourOfDefault "A" [c1t1, c1t2, c1t3] [c1t1, c1t3] [c1t2]).win_rate
    ∧ (buildResult hourOfDefault "A" [c1t1, c1t2, c1t3] [c1t1, c1t3] [c1t2]).win_rate ≤ 1
    ∧ (buildResult hourOfDefault "A" [c1t1, c1t2, c1t3] [c1t1, c1t3] [c1t2]).total_trades
        = ((filterAddr c1trades "A").filter posProfit).length
          + ((filterAddr c1trades "A").filter negProfit).length
          + ((filterAddr c1trades "A").filter zeroProfit).length :=
  c3_invariants hourOfDefault c1trades "A" _ rfl

/-- C8: `analyze_trades` never propagates an exception.  An address with no
trades yields the empty result without raising; a raised exception in the
body is caught and becomes the empty result; and a failed address is simply
skipped by `find_top_traders`, leaving the ranking of the other addresses
unchanged. -/
theorem c8_error_policy (hourOf : ℤ → Option ℕ) (trades : List RawTrade) (address : String) :
    (filterAddr trades address = [] →
      analyzeTradesE hourOf trades address = .ok none
      ∧ analyze_trades hourOf trades address = none)
    ∧ (∀ e, analyzeTradesE hourOf trades address = .error e →
        analyze_trades hourOf trades address = none)
    ∧ (∀ (min_trades : ℕ) (addrs1 addrs2 : List String) (a : String),
        analyze_trades hourOf trades a = none →
        find_top_traders hourOf trades min_trades (addrs1 ++ a :: addrs2)
          = find_top_traders hourOf trades min_trades (addrs1 ++ addrs2)) := by
  refine ⟨?_, ?_, ?_⟩
  · intro hnil
    have hE : analyzeTradesE hourOf trades address = .ok none := by
      unfold analyzeTradesE
      rw [if_pos hnil]
    refine ⟨hE, ?_⟩
    unfold analyze_trades
    rw [hE]
  · intro e he
    unfold analyze_trades
    rw [he]
  · intro m a1 a2 a ha
    unfold find_top_traders collectTraders
    simp only [List.filterMap_append, List.filterMap_cons, ha]

/-- Witness for C8: an unknown address gives the empty result; the
malformed record `{address: "A", profit: "oops"}` raises `TypeError`,
which is caught into the empty result; and dropping that failing address
from the set enumeration leaves `find_top_traders` unchanged. -/
theorem c8_error_policy_witness :
    (analyzeTradesE hourOfDefault c1trades "Z" = .ok none
      ∧ analyze_trades hourOfDefault c1trades "Z" = none)
    ∧ analyzeTradesE hourOfDefault c8trades "A" = .error "TypeError"
    ∧ analyze_trades hourOfDefault c8trades "A" = none
    ∧ find_top_traders hourOfDefault c8mix 1 ([] ++ "A" :: ["B"])
        = find_top_traders hourOfDefault c8mix 1 ([] ++ ["B"]) :=
  ⟨(c8_error_policy hourOfDefault c1trades "Z").1 rfl, rfl,
    (c8_error_policy hourOfDefault c8trades "A").2.1 "TypeError" rfl,
    (c8_error_policy hourOfDefault c8mix "A").2.2 1 [] ["B"] "A" rfl⟩

lemma tlDesc_trans : ∀ a b c : AnalysisResult, tlDesc a b → tlDesc b c → tlDesc a c := by
  intro a b c hab hbc
  simp only [tlDesc, decide_eq_true_eq] at hab hbc ⊢
  exact le_trans hbc hab

lemma tlDesc_total : ∀ a b : AnalysisResult, tlDesc a b || tlDesc b a := by
  intro a b
  simp only [tlDesc, Bool.or_eq_true, decide_eq_true_eq]
  exact le_total b.sharpe a.sharpe

/-- C6 amended: for any enumeration `addrs` of the set of addresses present
in the trade list (Python `set` iteration order is arbitrary, so any
permutation is a legitimate enumeration), `find_top_traders` returns
exactly the per-address results with `total_trades ≥ min_trades`, sorted
descending by Sharpe ratio, and the stable sort preserves the enumeration
order — not necessarily the trade list's insertion order — among tied
Sharpe values. -/
theorem c6_ranking (hourOf : ℤ → Option ℕ) (trades : List RawTrade) (min_trades : ℕ)
    (addrs : List String) (hperm : addrs.Perm (addressList trades)) :
    (find_top_traders hourOf trades min_trades addrs).Pairwise
        (fun x y => y.sharpe ≤ x.sharpe)
    ∧ (find_top_traders hourOf trades min_trades addrs).Perm
        (collectTraders hourOf trades min_trades addrs)
    ∧ (∀ r, r ∈ find_top_traders hourOf trades min_trades addrs ↔
        ∃ a, a ∈ addressList trades ∧ analyze_trades hourOf trades a = some r
          ∧ min_trades ≤ r.total_trades)
    ∧ (∀ c : List AnalysisResult, c.Pairwise (fun x y => x.sharpe = y.sharpe) →
        c.Sublist (collectTraders hourOf trades min_trades addrs) →
        c.Sublist (find_top_traders hourOf trades min_trades addrs)) := by
  refine ⟨?_, List.mergeSort_perm _ _, ?_, ?_⟩
  · have h := @List.sorted_mergeSort AnalysisResult tlDesc tlDesc_trans tlDesc_total
      (collectTraders hourOf trades min_trades addrs)
    exact h.imp fun hxy => by simpa [tlDesc] using hxy
  · intro r
    unfold find_top_traders
    rw [List.mem_mergeSort]
    unfold collectTraders
    rw [List.mem_filterMap]
    constructor
    · rintro ⟨a, ha, hfa⟩
      cases hr : analyze_trades hourOf trades a with
      | none => rw [hr] at hfa; exact absurd hfa (by simp)
      | some r0 =>
        rw [hr] at hfa
        dsimp only at hfa
        split_ifs at hfa with hm
        injection hfa with h0
        subst h0
        exact ⟨a, hperm.subset ha, hr, hm⟩
    · rintro ⟨a, haddr, hr, hm⟩
      refine ⟨a, hperm.mem_iff.mpr haddr, ?_⟩
      rw [hr]
      dsimp only
      rw [if_pos hm]
  · intro c hpair hsub
    exact List.sublist_mergeSort tlDesc_trans tlDesc_total
      (hpair.imp fun h => by
        simp only [tlDesc, decide_eq_true_eq]
        exact le_of_eq h.symm) hsub

/-- Witness for C6 amended at the scenario list (single address `A`,
enumeration `["A"]`, `min_trades = 1`). -/
theorem c6_ranking_witness :
    ["A"].Perm (addressList c1trades)
    ∧ ((find_top_traders hourOfDefault c1trades 1 ["A"]).Pairwise
          (fun x y => y.sharpe ≤ x.sharpe)
      ∧ (find_top_traders hourOfDefault c1trades 1 ["A"]).Perm
          (collectTraders hourOfDefault c1trades 1 ["A"])
      ∧ (∀ r, r ∈ find_top_traders hourOfDefault c1trades 1 ["A"] ↔
          ∃ a, a ∈ addressList c1trades
            ∧ analyze_trades hourOfDefault c1trades a = some r ∧ 1 ≤ r.total_trades)
      ∧ (∀ c : List AnalysisResult, c.Pairwise (fun x y => x.sharpe = y.sharpe) →
          c.Sublist (collectTraders hourOfDefault c1trades 1 ["A"]) →
          c.Sublist (find_top_traders hourOfDefault c1trades 1 ["A"]))) :=
  ⟨by decide, c6_ranking hourOfDefault c1trades 1 ["A"] (by decide)⟩

/-- C6 counterexample: in `c6trades` the insertion order of addresses is
`["A", "B"]` and both addresses have identical profit histories, hence tied
Sharpe ratios; under the legitimate set enumeration `["B", "A"]` the stable
sort returns `B` before `A`, so ties do not preserve the trade list's
insertion order. -/
theorem c6_counterexample :
    ["B", "A"].Perm (addressList c6trades)
    ∧ addressList c6trades = ["A", "B"]
    ∧ (find_top_traders hourOfDefault c6trades 1 ["B", "A"]).map (fun r => r.address)
        = ["B", "A"]
    ∧ (find_top_traders hourOfDefault c6trades 1 ["B", "A"]).map (fun r => r.sharpe)
        = [calcSharpe [2, -1], calcSharpe [2, -1]] := by
  have hcol : collectTraders hourOfDefault c6trades 1 ["B", "A"] = [c6rB, c6rA] := rfl
  have hpair : List.Pairwise (fun x y => tlDesc x y = true) [c6rB, c6rA] := by
    refine List.pairwise_cons.mpr ⟨?_, List.pairwise_singleton _ _⟩
    intro y hy
    rcases List.mem_singleton.mp hy with rfl
    exact decide_eq_true (le_refl (calcSharpe [2, -1]))
  have hft : find_top_traders hourOfDefault c6trades 1 ["B", "A"] = [c6rB, c6rA] := by
    unfold find_top_traders
    rw [hcol]
    exact List.mergeSort_of_sorted hpair
  refine ⟨by decide, by decide, ?_, ?_⟩
  · rw [hft]; rfl
  · rw [hft]; rfl
